import Mathlib

set_option allowUnsafeReducibility true in
attribute [semireducible] Rat.add Rat.sub Rat.mul Rat.div Rat.inv Rat.neg

/-!
Verification of the allone-web backend (Python/FastAPI) against its
natural-language specification.  Each Python function relevant to the claims is
shallowly embedded as an executable Lean definition:

* floats carrying money amounts and `time.time()` timestamps become `Rat`;
* Python dicts keyed by strings become insertion-ordered association lists;
* fallible operations return `Except`;
* external effects (Firestore reads/writes, the Firebase Admin SDK, `jwt.decode`)
  are passed in as explicit values describing their outcome.
-/

namespace AllOne

/-! ## `BillController.validate_split_amounts`
(`backend/controllers/bill_controller.py`, lines 17-33)

The controller raises `HTTPException(status_code=400, detail=...)` on failure.
The two possible `detail` payloads are modelled structurally: the second one is
the f-string interpolating the participant total and the bill total. -/

inductive SplitErr where
  | exceedTotal
  | mismatch (participantTotal total : Rat)
deriving DecidableEq

def validate_split_amounts (amount : Rat) (participantAmounts : List Rat)
    (splitType : String) : Except (Nat × SplitErr) Unit :=
  let total := amount
  let participant_total := participantAmounts.sum
  if splitType = "partial" then
    if participant_total > total then .error (400, .exceedTotal) else .ok ()
  else
    if |participant_total - total| > 1/100 then
      .error (400, .mismatch participant_total total)
    else .ok ()

/-! ## Rate limiting (`backend/middleware/rate_limit.py`)

`time.time()` is a float; timestamps are `Rat`.  Python's `int()` truncates
toward zero. -/

def DAILY_QUERY_LIMIT : Nat := 20
def AI_BURST_LIMIT : Nat := 5
def ROLLING_WINDOW_HOURS : Nat := 24
def BURST_WINDOW_SECONDS : Nat := 60
def GENERAL_API_LIMIT : Nat := 100
def GENERAL_API_WINDOW_SECONDS : Nat := 60

def pyInt (x : Rat) : Int := if 0 ≤ x then ⌊x⌋ else ⌈x⌉

def listMin : List Rat → Rat
  | [] => 0
  | x :: xs => xs.foldl min x

structure RateLimitInfo where
  requests : List Rat
  burst_requests : List Rat
  general_requests : List Rat
deriving DecidableEq

def RateLimitInfo.init : RateLimitInfo := ⟨[], [], []⟩

def RateLimitInfo.add_request (info : RateLimitInfo) (now : Rat) (is_ai : Bool) :
    RateLimitInfo :=
  if is_ai then
    let requests := info.requests ++ [now]
    let burst_requests := info.burst_requests ++ [now]
    let cutoff := now - ((ROLLING_WINDOW_HOURS : Rat) * 3600)
    let requests := requests.filter (fun req => req > cutoff)
    let burst_cutoff := now - (BURST_WINDOW_SECONDS : Rat)
    let burst_requests := burst_requests.filter (fun req => req > burst_cutoff)
    { info with requests := requests, burst_requests := burst_requests }
  else
    let general_requests := info.general_requests ++ [now]
    let general_cutoff := now - (GENERAL_API_WINDOW_SECONDS : Rat)
    let general_requests := general_requests.filter (fun req => req > general_cutoff)
    { info with general_requests := general_requests }

def RateLimitInfo.check_daily_limit (info : RateLimitInfo) :
    Bool × Int × Option Int :=
  let count := info.requests.length
  let remaining : Int := max 0 ((DAILY_QUERY_LIMIT : Int) - count)
  let is_allowed := count < DAILY_QUERY_LIMIT
  let reset_time : Option Int :=
    if info.requests.isEmpty then none
    else some (pyInt (listMin info.requests + (ROLLING_WINDOW_HOURS : Rat) * 3600))
  (is_allowed, remaining, reset_time)

def RateLimitInfo.check_burst_limit (info : RateLimitInfo) : Bool × Int :=
  let count := info.burst_requests.length
  let remaining : Int := max 0 ((AI_BURST_LIMIT : Int) - count)
  (count < AI_BURST_LIMIT, remaining)

def RateLimitInfo.check_general_limit (info : RateLimitInfo) : Bool × Int :=
  let count := info.general_requests.length
  let remaining : Int := max 0 ((GENERAL_API_LIMIT : Int) - count)
  (count < GENERAL_API_LIMIT, remaining)

/-- The structured dict returned by `check_rate_limit` (only the fields the
spec talks about: `type`, `limit`, `remaining`, `reset_time` for rejections,
`remaining`/`limit`/`reset_time` for allowed requests). -/
inductive RLOutcome where
  | allowed (remaining : Int) (limit : Nat) (reset_time : Option Int)
  | rejected (rtype : String) (limit : Nat) (remaining : Int) (reset_time : Option Int)
deriving DecidableEq

/-- Embeds `check_rate_limit(user_id, is_ai)` for one user: the per-user
`RateLimitInfo` is threaded explicitly, `time.time()` is the `now` argument. -/
def check_rate_limit (info : RateLimitInfo) (now : Rat) (is_ai : Bool) :
    RateLimitInfo × Bool × RLOutcome :=
  if is_ai then
    let burst_allowed := (info.check_burst_limit).1
    if !burst_allowed then
      (info, false, .rejected "burst" AI_BURST_LIMIT 0
        (some (pyInt (now + (BURST_WINDOW_SECONDS : Rat)))))
    else
      let daily := info.check_daily_limit
      if !daily.1 then
        (info, false, .rejected "daily" DAILY_QUERY_LIMIT 0 daily.2.2)
      else
        (info.add_request now true, true,
          .allowed (daily.2.1 - 1) DAILY_QUERY_LIMIT daily.2.2)
  else
    let general := info.check_general_limit
    if !general.1 then
      (info, false, .rejected "general" GENERAL_API_LIMIT 0
        (some (pyInt (now + (GENERAL_API_WINDOW_SECONDS : Rat)))))
    else
      (info.add_request now false, true,
        .allowed (general.2 - 1) GENERAL_API_LIMIT
          (some (pyInt (now + (GENERAL_API_WINDOW_SECONDS : Rat)))))

/-- Run a sequence of `check_rate_limit` calls (timestamp, is_ai), collecting
the outcomes. -/
def runChecks (info : RateLimitInfo) : List (Rat × Bool) →
    RateLimitInfo × List (Bool × RLOutcome)
  | [] => (info, [])
  | (t, ai) :: rest =>
    let r := check_rate_limit info t ai
    let rec' := runChecks r.1 rest
    (rec'.1, (r.2.1, r.2.2) :: rec'.2)

/-! ## `verify_firebase_token` (`backend/middleware/auth.py`, lines 13-52)

The primary path (`auth.verify_id_token`) and the unverified decode
(`jwt.decode(..., verify_signature=False)`) are external calls; their outcomes
are passed in as `Except` values.  The claims dict of a decoded JWT is
modelled by the fields the function touches (`iss`, `aud`, `exp`, `sub`,
`uid`); `.get` with an absent key yields `none`.  Every failure inside the
fallback `try` blocks is caught and re-raised as the original `admin_error`. -/

structure PyClaims where
  iss : Option String
  aud : Option String
  exp : Option Rat
  sub : Option String
  uid : Option String
deriving DecidableEq

/-- The `sub` → `uid` compatibility copy performed at the end of the fallback. -/
def uidFix (c : PyClaims) : PyClaims :=
  if c.sub.isSome ∧ c.uid = none then { c with uid := c.sub } else c

def issuerOf (project_id : String) : String :=
  "https://securetoken.google.com/" ++ project_id

def verify_firebase_token (primary : Except String PyClaims)
    (decoded : Except String PyClaims) (project_id : String) (now : Rat) :
    Except String PyClaims :=
  match primary with
  | .ok token => .ok token
  | .error admin_error =>
    match decoded with
    | .error _ => .error admin_error
    | .ok unverified =>
      if unverified.iss ≠ some (issuerOf project_id) then .error admin_error
      else if unverified.aud ≠ some project_id then .error admin_error
      else
        -- `exp = unverified.get('exp', 0); if exp and exp < time.time()`
        let exp := unverified.exp.getD 0
        if exp ≠ 0 ∧ exp < now then .error admin_error
        else .ok (uidFix unverified)

/-! ## `SpaceRepository.transfer_ownership`
(`backend/repositories/space_repository.py`, lines 201-235)

Only the fields the function touches are modelled.  Python's `list.remove`
removes the first matching occurrence, which is Lean's `List.erase`; cache
invalidation and the Firestore round trip are outside the model. -/

structure Space where
  ownerId : String
  members : List String
deriving DecidableEq

def transfer_ownership (space : Space) (new_owner_id : String) : Space :=
  let old_owner_id := space.ownerId
  let members := space.members
  let members := if old_owner_id ∈ members then members else members ++ [old_owner_id]
  let members := if new_owner_id ∈ members then members.erase new_owner_id else members
  { ownerId := new_owner_id, members := members }

/-! ## Bill repository (`backend/repositories/bill_repository.py`)

Bills and settlements live in two Firestore collections, modelled as
association lists from document id to document.  Money amounts (floats) are
`Rat`.  `datetime.now(timezone.utc)` is passed in as `nowIso` (the `isoformat`
string, used for both `updatedAt` and the settlement's `createdAt`, which the
code computes microseconds apart) and `nowTs` (`int(... .timestamp())`). -/

structure Participant where
  userId : String
  amount : Rat
  paid : Bool
  paidAt : Option String
deriving DecidableEq

structure Bill where
  createdBy : String
  amount : Rat
  participants : List Participant
  isSettled : Bool
  updatedAt : String
deriving DecidableEq

structure Settlement where
  billId : String
  userId : String
  amount : Rat
  paidAt : String
  notes : Option String
  createdAt : String
deriving DecidableEq

structure BillsDB where
  bills : List (String × Bill)
  settlements : List (String × Settlement)
deriving DecidableEq

/-- Overwrite the value stored at a key (Firestore `doc_ref.update`). -/
def updateAssoc (l : List (String × Bill)) (k : String) (v : Bill) :
    List (String × Bill) :=
  l.map (fun e => if e.1 = k then (k, v) else e)

/-- The `for participant in participants: ... break` loop of
`mark_participant_paid`: set `paid`/`paidAt` on the first participant whose
`userId` matches, and report whether one was found. -/
def markPaidInList (participants : List Participant) (user_id : String)
    (paid_at : String) : List Participant × Bool :=
  match participants with
  | [] => ([], false)
  | p :: rest =>
    if p.userId = user_id then
      ({ p with paid := true, paidAt := some paid_at } :: rest, true)
    else
      let r := markPaidInList rest user_id paid_at
      (p :: r.1, r.2)

/-- Embeds `BillRepository.mark_participant_paid` (lines 114-162).  The settlement
write at line 157 is a Firestore call that can fail; `settlementWriteOk`
records its outcome.  The bill update at line 141 happens first in either
case. -/
def mark_participant_paid (db : BillsDB) (bill_id user_id : String)
    (amount : Rat) (paid_at : String) (notes : Option String)
    (nowIso : String) (nowTs : Int) (settlementWriteOk : Bool) :
    BillsDB × Except String Settlement :=
  match db.bills.lookup bill_id with
  | none => (db, .error "Bill not found")
  | some bill =>
    let r := markPaidInList bill.participants user_id paid_at
    if !r.2 then (db, .error "Participant not found in bill")
    else
      let participants := r.1
      let all_paid := participants.all (fun p => p.paid)
      let bill' := { bill with participants := participants,
                               isSettled := all_paid, updatedAt := nowIso }
      let db1 := { db with bills := updateAssoc db.bills bill_id bill' }
      let settlement_id :=
        "settlement_" ++ bill_id ++ "_" ++ user_id ++ "_" ++ toString nowTs
      let settlement : Settlement :=
        ⟨bill_id, user_id, amount, paid_at, notes, nowIso⟩
      if settlementWriteOk then
        ({ db1 with settlements := db1.settlements ++ [(settlement_id, settlement)] },
          .ok settlement)
      else
        (db1, .error "settlement write failed")

/-! ### `BillRepository.calculate_balances` (lines 164-213)

`user_balances` is a Python dict `{userId: {'debts': .., 'credits': ..}}`;
dicts preserve insertion order, so it is an insertion-ordered association
list of `(userId, (debts, credits))`.  `round(x, 2)` on our exact-rational
model of floats is round-half-to-even of `100 * x`, divided by 100. -/

def roundHalfEven (x : Rat) : Int :=
  let f := ⌊x⌋
  let frac := x - f
  if frac < 1/2 then f
  else if frac > 1/2 then f + 1
  else if f % 2 = 0 then f else f + 1

def pyRound2 (x : Rat) : Rat := (roundHalfEven (100 * x) : Rat) / 100

/-- Embeds `if u not in user_balances: user_balances[u] = ...` (fresh zero entry). -/
def ensureUser (m : List (String × Rat × Rat)) (u : String) :
    List (String × Rat × Rat) :=
  if (m.lookup u).isSome then m else m ++ [(u, (0, 0))]

/-- Embeds `user_balances[u]['credits'] += a` (no-op on an absent key; every call
site ensures the key is present first). -/
def addCredit (m : List (String × Rat × Rat)) (u : String) (a : Rat) :
    List (String × Rat × Rat) :=
  m.map (fun e => if e.1 = u then (e.1, (e.2.1, e.2.2 + a)) else e)

/-- Embeds `user_balances[u]['debts'] += a` (same remark as `addCredit`). -/
def addDebt (m : List (String × Rat × Rat)) (u : String) (a : Rat) :
    List (String × Rat × Rat) :=
  m.map (fun e => if e.1 = u then (e.1, (e.2.1 + a, e.2.2)) else e)

/-- Body of `for participant in participants` in `calculate_balances`: the
creator's own share is netted out of their credits, every other participant's
share is added to their debts (creating their entry if needed).  The creator's
entry is always present when this runs. -/
def processParticipant (created_by : String) (m : List (String × Rat × Rat))
    (p : Participant) : List (String × Rat × Rat) :=
  if p.userId = created_by then addCredit m p.userId (-p.amount)
  else addDebt (ensureUser m p.userId) p.userId p.amount

/-- Body of `for bill in bills`: settled bills are skipped; the creator is
credited the full amount, then each participant is processed. -/
def processBill (m : List (String × Rat × Rat)) (bill : Bill) :
    List (String × Rat × Rat) :=
  if bill.isSettled then m
  else
    let m := ensureUser m bill.createdBy
    let m := addCredit m bill.createdBy bill.amount
    bill.participants.foldl (processParticipant bill.createdBy) m

structure BalanceEntry where
  userId : String
  netBalance : Rat
  debts : Rat
  credits : Rat
deriving DecidableEq

/-- Embeds `calculate_balances`, with the space's bills (the result of
`get_by_space_id`) passed in. -/
def calculate_balances (bills : List Bill) : List BalanceEntry :=
  let user_balances := bills.foldl processBill []
  user_balances.filterMap (fun e =>
    let net := e.2.2 - e.2.1
    if |net| > 1/100 then
      some ⟨e.1, pyRound2 net, pyRound2 e.2.1, pyRound2 e.2.2⟩
    else none)

/-- Specification-side figure: what one bill contributes to `u`'s credits
(the full amount if `u` created it, minus `u`'s own shares on their own
bill; settled bills contribute nothing). -/
def creditsDelta (b : Bill) (u : String) : Rat :=
  if b.isSettled then 0
  else if b.createdBy = u then
    b.amount - ((b.participants.filter (fun p => p.userId = u)).map
      (fun p => p.amount)).sum
  else 0

/-- Specification-side figure: what one bill contributes to `u`'s debts
(`u`'s shares on bills created by someone else; settled bills contribute
nothing). -/
def debtsDelta (b : Bill) (u : String) : Rat :=
  if b.isSettled then 0
  else if b.createdBy = u then 0
  else ((b.participants.filter (fun p => p.userId = u)).map
    (fun p => p.amount)).sum

def creditsExact (bills : List Bill) (u : String) : Rat :=
  (bills.map (fun b => creditsDelta b u)).sum

def debtsExact (bills : List Bill) (u : String) : Rat :=
  (bills.map (fun b => debtsDelta b u)).sum

/-! ## `IntentGuard` (`backend/services/intent_guard.py`)

Every regex in `INTENT_PATTERNS` is a sequence of literals joined by `.*`
(possibly a single literal).  `re.findall` on such a pattern repeatedly takes
the leftmost match (with each `.*` greedy) and resumes after it; that is what
`countFindall` computes, on single-line queries (the queries here contain no
newline, so `.`-excludes-newline does not matter).  The regex-based
`extract_parameters` is passed to `validate_intent` as an explicit function
argument; no claim below depends on its output. -/

/-- Python's `str.lower()` (the strings involved are ASCII). -/
def pyLower (s : String) : String := ⟨s.data.map Char.toLower⟩

/-- Index of the first occurrence of `pat` in `hay`, if any. -/
def findSub (hay pat : List Char) : Option Nat :=
  match hay with
  | [] => if pat.isEmpty then some 0 else none
  | _ :: t => if pat.isPrefixOf hay then some 0 else (findSub t pat).map (· + 1)

/-- Index of the last occurrence of `pat` in `hay`, if any. -/
def findSubLast (hay pat : List Char) : Option Nat :=
  match hay with
  | [] => if pat.isEmpty then some 0 else none
  | _ :: t =>
    match (findSubLast t pat).map (· + 1) with
    | some j => some j
    | none => if pat.isPrefixOf hay then some 0 else none

def containsStr (s pat : String) : Bool := (findSub s.toList pat.toList).isSome

/-- End offset of the shortest in-order placement of the literal sequence
`lits` starting from the beginning of `hay`. -/
def minChainEnd : List (List Char) → List Char → Option Nat
  | [], _ => some 0
  | lit :: rest, hay =>
    match findSub hay lit with
    | none => none
    | some i =>
      (minChainEnd rest (hay.drop (i + lit.length))).map
        (fun e => i + lit.length + e)

/-- One leftmost-greedy match of the pattern `l₁.*l₂.*…*lₙ`: the end of the
match is the end of the last occurrence of `lₙ` compatible with a minimal
in-order placement of `l₁ … lₙ₋₁` (for a single literal it is just its first
occurrence).  Returns the offset just past the match. -/
def greedyMatchEnd (lits : List (List Char)) (hay : List Char) : Option Nat :=
  match lits with
  | [] => none
  | [l] => (findSub hay l).map (fun i => i + l.length)
  | _ =>
    match minChainEnd lits.dropLast hay with
    | none => none
    | some e =>
      let lastLit := lits.getLastD []
      match findSubLast (hay.drop e) lastLit with
      | none => none
      | some j => some (e + j + lastLit.length)

/-- Computes `len(re.findall(pattern, hay))` for the literal-sequence pattern family;
fuel-driven (each match consumes at least one character, so `hay.length + 1`
steps suffice). -/
def countFindallAux (fuel : Nat) (lits : List (List Char)) (hay : List Char) :
    Nat :=
  match fuel with
  | 0 => 0
  | fuel + 1 =>
    if lits.any List.isEmpty then 0
    else
      match greedyMatchEnd lits hay with
      | none => 0
      | some e =>
        if e = 0 then 0 else 1 + countFindallAux fuel lits (hay.drop e)

def countFindall (lits : List String) (hay : String) : Nat :=
  countFindallAux (hay.length + 1) (lits.map String.toList) hay.toList

inductive IntentType where
  | create_password
  | create_totp
  | create_space
  | get_details
  | toggle_setting
  | create_passkey
  | search
  | general_query
deriving DecidableEq

def IntentType.str : IntentType → String
  | .create_password => "create_password"
  | .create_totp => "create_totp"
  | .create_space => "create_space"
  | .get_details => "get_details"
  | .toggle_setting => "toggle_setting"
  | .create_passkey => "create_passkey"
  | .search => "search"
  | .general_query => "general_query"

/-- Embeds `IntentGuard.INTENT_PATTERNS`, each regex as its literal segments. -/
def INTENT_PATTERNS : List (IntentType × List (List String)) :=
  [(.create_password,
     [["create", "password"], ["add", "password"], ["new", "password"],
      ["save", "password"], ["store", "password"], ["insert", "password"]]),
   (.create_totp,
     [["create", "totp"], ["add", "totp"], ["new", "totp"],
      ["add", "authenticator"], ["create", "authenticator"],
      ["new", "authenticator"], ["add", "2fa"]]),
   (.create_space,
     [["create", "space"], ["add", "space"], ["new", "space"],
      ["make", "space"]]),
   (.get_details,
     [["show", "password"], ["details", "password"], ["info", "password"],
      ["tell", "about", "password"], ["what", "password"],
      ["password", "details"]]),
   (.toggle_setting,
     [["enable"], ["disable"], ["turn", "on"], ["turn", "off"], ["toggle"],
      ["change", "setting"], ["update", "setting"], ["set", "setting"]]),
   (.create_passkey,
     [["create", "passkey"], ["set", "passkey"], ["add", "passkey"],
      ["enable", "passkey"]]),
   (.search,
     [["search"], ["find"], ["look", "for"], ["where", "password"],
      ["list", "password"]])]

/-- The keyword lists of the score boosts in `classify_intent`. -/
def boostWords : IntentType → List String
  | .create_password => ["password", "credential", "login"]
  | .create_totp => ["totp", "authenticator", "2fa", "mfa"]
  | .create_space => ["space", "group", "team"]
  | .search => ["search", "find", "list"]
  | _ => []

def REQUIRED_PARAMS : IntentType → List String
  | .create_password => ["displayName", "password"]
  | .create_totp => ["name", "secret"]
  | .create_space => ["name", "type"]
  | .get_details => ["identifier"]
  | .toggle_setting => ["setting_name", "value"]
  | .create_passkey => ["password"]
  | .search => ["query"]
  | .general_query => []

def OPTIONAL_PARAMS : IntentType → List String
  | .create_password => ["username", "website", "category", "spaceId", "notes"]
  | .create_totp => ["issuer", "spaceId"]
  | .create_space => ["members"]
  | _ => []

/-- Embeds `IntentGuard.classify_intent` (lines 79-112).  All scores are
non-negative, so `max(scores.values()) == 0` is `all scores = 0`; Python's
`max(scores.items(), key=...)` returns the first item attaining the maximum,
which the strict-greater fold reproduces. -/
def classify_intent (query : String) : IntentType × Rat :=
  let query_lower := pyLower query
  let scores : List (IntentType × Rat) :=
    INTENT_PATTERNS.map (fun ip =>
      let base : Rat :=
        (ip.2.map (fun pat => ((countFindall pat query_lower : Nat) : Rat) * (3/10))).sum
      let boost : Rat :=
        if (boostWords ip.1).any (fun w => containsStr query_lower w) then 1/2 else 0
      (ip.1, base + boost))
  if scores.all (fun s => s.2 = 0) then (.general_query, 0)
  else
    let best := scores.foldl (fun acc s => if s.2 > acc.2 then s else acc)
      (.general_query, 0)
    (best.1, min 1 best.2)

structure Msg where
  role : String
  content : String
deriving DecidableEq

/-- The clarification phrases scanned for in `validate_intent`. -/
def CLARIFY_PHRASES : List String :=
  ["need", "provide", "missing", "information", "tell me", "what is",
   "please provide", "i need", "can you provide"]

def isClarifying (msg : Msg) : Bool :=
  msg.role = "assistant" &&
    CLARIFY_PHRASES.any (fun ph => containsStr (pyLower msg.content) ph)

/-- The intent inference from a clarifying assistant message's (lowercased)
content. -/
def inferPrevIntent (content : String) : Option IntentType :=
  if containsStr content "password" ∧
      (containsStr content "create" ∨ containsStr content "add") then
    some .create_password
  else if containsStr content "totp" ∨ containsStr content "authenticator" then
    some .create_totp
  else if containsStr content "space" then some .create_space
  else none

/-- The `for msg in reversed(conversation_history[:-1])` loop: the input here
is already reversed.  The loop `break`s only on an assistant message that
contains a clarification phrase; other messages are skipped. -/
def scanFollowup : List Msg → Bool × Option IntentType
  | [] => (false, none)
  | msg :: rest =>
    if isClarifying msg then (true, inferPrevIntent (pyLower msg.content))
    else scanFollowup rest

def findFollowup (history : List Msg) : Bool × Option IntentType :=
  if history.length > 1 then scanFollowup history.dropLast.reverse
  else (false, none)

structure IntentResult where
  intent : String
  confidence : Rat
  parameters : List (String × String)
  missing_parameters : List String
  is_complete : Bool
  optional_parameters : List String
deriving DecidableEq

/-- Embeds `IntentGuard.validate_intent` (lines 191-252).  `extract` stands for
`extract_parameters`; a parameter whose extracted value is `""` is falsy in
Python and counts as missing. -/
def validate_intent (extract : String → IntentType → List (String × String))
    (query : String) (history : List Msg) : IntentResult :=
  let f := findFollowup history
  let ic : IntentType × Rat :=
    match f with
    | (true, some p) => (p, 9/10)
    | _ => classify_intent query
  let params := extract query ic.1
  if f.1 then
    { intent := ic.1.str, confidence := ic.2, parameters := params,
      missing_parameters := [], is_complete := true,
      optional_parameters := OPTIONAL_PARAMS ic.1 }
  else
    let required := REQUIRED_PARAMS ic.1
    let missing := required.filter (fun p =>
      match params.lookup p with
      | none => true
      | some v => v = "")
    { intent := ic.1.str, confidence := ic.2, parameters := params,
      missing_parameters := missing, is_complete := missing.isEmpty,
      optional_parameters := OPTIONAL_PARAMS ic.1 }

/-! ## Theorems -/

/-- C2: `validate_split_amounts` succeeds for splitType partial iff the
participant sum does not exceed the total, raising the 400
"Participant amounts cannot exceed bill total" error otherwise; for every
other split type it succeeds iff the participant sum is within 0.01 of the
total, raising a 400 error carrying both figures otherwise. -/
theorem validate_split_amounts_spec (amount : Rat) (ps : List Rat) (st : String) :
    (st = "partial" →
      ((validate_split_amounts amount ps st = .ok ()) ↔ ps.sum ≤ amount) ∧
      (amount < ps.sum →
        validate_split_amounts amount ps st = .error (400, .exceedTotal))) ∧
    (st ≠ "partial" →
      ((validate_split_amounts amount ps st = .ok ()) ↔ |ps.sum - amount| ≤ 1/100) ∧
      (1/100 < |ps.sum - amount| →
        validate_split_amounts amount ps st = .error (400, .mismatch ps.sum amount))) := by
  unfold validate_split_amounts
  constructor
  · intro h
    simp only [if_pos h]
    constructor
    · split_ifs with hgt
      · simp only [reduceCtorEq, false_iff, not_le]
        exact hgt
      · simpa using le_of_not_lt hgt
    · intro hlt
      rw [if_pos hlt]
  · intro h
    simp only [if_neg h]
    constructor
    · split_ifs with hgt
      · simp only [reduceCtorEq, false_iff, not_le]
        exact hgt
      · simpa using le_of_not_lt hgt
    · intro hlt
      rw [if_pos hlt]

/-- C2 witness: a 100.00 bill with a single 60.00 participant passes for
splitType partial and fails (with both figures in the error) for splitType
equal. -/
theorem validate_split_amounts_spec_witness :
    validate_split_amounts 100 [60] "partial" = .ok () ∧
    validate_split_amounts 100 [60] "equal" = .error (400, .mismatch 60 100) := by
  refine ⟨((validate_split_amounts_spec 100 [60] "partial").1 rfl).1.mpr (by norm_num), ?_⟩
  have h := ((validate_split_amounts_spec 100 [60] "equal").2 (by decide)).2 (by norm_num [List.sum])
  simpa using h

/-- C6: for a user with no recorded requests, six AI rate-limit checks inside
one 60-second window are allowed five times with remaining-daily 19, 18, 17,
16, 15 (each allowed check recording the request), and the sixth is rejected
with type "burst", limit 5, remaining 0. -/
theorem six_ai_requests_burst :
    (runChecks .init
      [(0, true), (10, true), (20, true), (30, true), (40, true), (50, true)]).2 =
      [(true, .allowed 19 DAILY_QUERY_LIMIT none),
       (true, .allowed 18 DAILY_QUERY_LIMIT (some 86400)),
       (true, .allowed 17 DAILY_QUERY_LIMIT (some 86400)),
       (true, .allowed 16 DAILY_QUERY_LIMIT (some 86400)),
       (true, .allowed 15 DAILY_QUERY_LIMIT (some 86400)),
       (false, .rejected "burst" AI_BURST_LIMIT 0 (some 110))] := by
  decide

/-- C4: the burst list is pruned only inside `add_request`, which a rejected
check never calls; after five AI requests at t = 0..4, a sixth check at
t = 120 — more than 60 seconds after every previous AI request — is still
rejected with type "burst", contradicting the lazily-pruned-on-check claim. -/
theorem burst_window_never_pruned_on_check :
    (∀ t ∈ ((runChecks .init
        [(0, true), (1, true), (2, true), (3, true), (4, true)]).1).burst_requests,
      t + 60 < 120) ∧
    check_rate_limit
        ((runChecks .init [(0, true), (1, true), (2, true), (3, true), (4, true)]).1)
        120 true =
      ((runChecks .init [(0, true), (1, true), (2, true), (3, true), (4, true)]).1,
        false, .rejected "burst" AI_BURST_LIMIT 0 (some 180)) := by
  decide

/-- C5 counterexample: a decoded token whose `exp` claim is present and equal
to 0 — an expiry far in the past — is accepted by the fallback (with `sub`
copied to `uid`), because `if exp and exp < time.time()` skips the comparison
for a falsy `exp`; so "any present expiry is in the future" is not required
for acceptance. -/
theorem fallback_accepts_zero_expiry :
    verify_firebase_token (.error "boom")
        (.ok ⟨some (issuerOf "pid"), some "pid", some 0, some "u1", none⟩) "pid" 1000 =
      .ok ⟨some (issuerOf "pid"), some "pid", some 0, some "u1", some "u1"⟩ ∧
    (0 : Rat) < 1000 := by
  constructor
  · rfl
  · norm_num

/-- C5 (amended): when the primary verification fails with `e`, the fallback
accepts the unverified claims (with `sub` copied to `uid` when `uid` is
absent) exactly when the issuer is `https://securetoken.google.com/<pid>`,
the audience is `<pid>`, and any present *non-zero* expiry is not before the
current time (a zero expiry is treated as absent); every failure — decode
failure or any check failing — surfaces the original error `e`. -/
theorem fallback_validation_spec (e : String) (decoded : Except String PyClaims)
    (pid : String) (now : Rat) :
    (∀ u, decoded = .ok u →
      (verify_firebase_token (.error e) decoded pid now = .ok (uidFix u) ↔
        (u.iss = some (issuerOf pid) ∧ u.aud = some pid ∧
          (u.exp.getD 0 ≠ 0 → ¬ u.exp.getD 0 < now)))) ∧
    (∀ e', verify_firebase_token (.error e) decoded pid now = .error e' → e' = e) ∧
    (∀ msg, decoded = .error msg →
      verify_firebase_token (.error e) decoded pid now = .error e) := by
  refine ⟨?_, ?_, ?_⟩
  · rintro u rfl
    simp only [verify_firebase_token]
    split_ifs with h1 h2 h3
    · simp only [reduceCtorEq, false_iff]
      rintro ⟨hiss, -, -⟩
      exact h1 hiss
    · simp only [reduceCtorEq, false_iff]
      rintro ⟨-, haud, -⟩
      exact h2 haud
    · simp only [reduceCtorEq, false_iff]
      rintro ⟨-, -, hexp⟩
      exact hexp h3.1 h3.2
    · push_neg at h1 h2 h3
      simp only [Except.ok.injEq, true_iff]
      exact ⟨h1, h2, fun hne => not_lt.mpr (h3 hne)⟩
  · intro e' he'
    rcases decoded with msg | u
    · simp only [verify_firebase_token] at he'
      injection he' with h
      exact h.symm
    · simp only [verify_firebase_token] at he'
      split_ifs at he' with h1 h2 h3 <;> simp_all
  · rintro msg rfl
    rfl

/-- C5 witness: with a failing primary path, a decoded token with the right
issuer and audience and a future expiry is accepted, with `sub` copied to
`uid`. -/
theorem fallback_validation_spec_witness :
    verify_firebase_token (.error "boom")
        (.ok ⟨some (issuerOf "pid"), some "pid", some 50, some "u2", none⟩) "pid" 5 =
      .ok (uidFix ⟨some (issuerOf "pid"), some "pid", some 50, some "u2", none⟩) :=
  ((fallback_validation_spec "boom"
      (.ok ⟨some (issuerOf "pid"), some "pid", some 50, some "u2", none⟩) "pid" 5).1
    _ rfl).mpr ⟨rfl, rfl, by norm_num⟩

/-- C8 counterexample: for a space owned by "A" whose members list holds "B"
twice (member lists are stored as client-supplied lists, which creation does
not deduplicate), transferring ownership to the previously-listed member "B"
removes only the first occurrence: the result still contains "B" in members,
against the claim that members no longer contain B. -/
theorem transfer_ownership_duplicate_member :
    transfer_ownership ⟨"A", ["B", "B"]⟩ "B" = ⟨"B", ["B", "A"]⟩ ∧
    "B" ∈ (transfer_ownership ⟨"A", ["B", "B"]⟩ "B").members ∧
    "B" ∈ (["B", "B"] : List String) ∧ "A" ∉ (["B", "B"] : List String) := by
  decide

/-- C8 (amended): `transfer_ownership` sets ownerId to the new owner, appends
the old owner to members when absent, and removes the *first occurrence* of
the new owner from members when present; in particular, transferring from
owner A (not a member) to a member B listed exactly once yields ownerId = B,
members containing A and no longer containing B. -/
theorem transfer_ownership_spec (s : Space) (B : String)
    (hB : s.members.count B = 1) (hA : s.ownerId ∉ s.members) :
    (transfer_ownership s B).ownerId = B ∧
    s.ownerId ∈ (transfer_ownership s B).members ∧
    B ∉ (transfer_ownership s B).members := by
  have hBmem : B ∈ s.members := by
    rw [← List.count_pos_iff]
    omega
  have hAB : s.ownerId ≠ B := fun h => hA (h ▸ hBmem)
  have hBmem1 : B ∈ s.members ++ [s.ownerId] := List.mem_append_left _ hBmem
  have hred : transfer_ownership s B = ⟨B, (s.members ++ [s.ownerId]).erase B⟩ := by
    simp only [transfer_ownership]
    rw [if_neg hA, if_pos hBmem1]
  rw [hred, List.erase_append_left _ hBmem]
  refine ⟨rfl, List.mem_append_right _ (List.mem_singleton_self _), ?_⟩
  intro hmem
  rcases List.mem_append.mp hmem with h | h
  · have := List.count_erase_self B s.members
    have hpos := List.count_pos_iff.mpr h
    omega
  · exact hAB (List.mem_singleton.mp h).symm

/-- C8 witness: transferring the space owned by "A" with members ["B", "C"]
to "B" yields owner "B", members containing "A" and not "B". -/
theorem transfer_ownership_spec_witness :
    (transfer_ownership ⟨"A", ["B", "C"]⟩ "B").ownerId = "B" ∧
    "A" ∈ (transfer_ownership ⟨"A", ["B", "C"]⟩ "B").members ∧
    "B" ∉ (transfer_ownership ⟨"A", ["B", "C"]⟩ "B").members :=
  transfer_ownership_spec ⟨"A", ["B", "C"]⟩ "B" (by decide) (by decide)

lemma markPaidInList_not_found (ps : List Participant) (u t : String)
    (h : ∀ p ∈ ps, p.userId ≠ u) : markPaidInList ps u t = (ps, false) := by
  induction ps with
  | nil => rfl
  | cons p rest ih =>
    simp only [markPaidInList]
    rw [if_neg (h p (List.mem_cons_self p rest)),
      ih (fun q hq => h q (List.mem_cons_of_mem _ hq))]

lemma markPaidInList_found (ps : List Participant) (u t : String)
    (h : ∃ p ∈ ps, p.userId = u) :
    ∃ l1 p l2, ps = l1 ++ p :: l2 ∧ (∀ q ∈ l1, q.userId ≠ u) ∧ p.userId = u ∧
      markPaidInList ps u t =
        (l1 ++ { p with paid := true, paidAt := some t } :: l2, true) := by
  induction ps with
  | nil => simp at h
  | cons p rest ih =>
    by_cases hp : p.userId = u
    · refine ⟨[], p, rest, rfl, by simp, hp, ?_⟩
      simp only [markPaidInList]
      rw [if_pos hp]
      simp
    · have h' : ∃ q ∈ rest, q.userId = u := by
        rcases h with ⟨q, hq, hqu⟩
        rcases List.mem_cons.mp hq with rfl | hq'
        · exact absurd hqu hp
        · exact ⟨q, hq', hqu⟩
      rcases ih h' with ⟨l1, q, l2, hsplit, hl1, hqu, heq⟩
      refine ⟨p :: l1, q, l2, by rw [hsplit]; rfl, ?_, hqu, ?_⟩
      · intro r hr
        rcases List.mem_cons.mp hr with rfl | hr'
        · exact hp
        · exact hl1 r hr'
      · simp only [markPaidInList]
        rw [if_neg hp, heq]
        simp

lemma lookup_updateAssoc_self (l : List (String × Bill)) (k : String) (v : Bill)
    (h : (l.lookup k).isSome) : (updateAssoc l k v).lookup k = some v := by
  induction l with
  | nil => simp [List.lookup] at h
  | cons e rest ih =>
    rcases e with ⟨a, b⟩
    by_cases he : a = k
    · subst he
      simp only [updateAssoc, List.map_cons]
      simp [List.lookup]
    · have hne : (k == a) = false := beq_eq_false_iff_ne.mpr fun hk => he hk.symm
      simp only [List.lookup, hne] at h
      simp only [updateAssoc, List.map_cons]
      rw [show (if ((a, b) : String × Bill).1 = k then (k, v) else (a, b)) = (a, b) from
        if_neg he]
      simp only [List.lookup, hne]
      simp only [updateAssoc] at ih
      exact ih h

/-- C3: for an existing bill, `mark_participant_paid` raises the
"Participant not found in bill" error when no participant has the given
userId; otherwise it marks the first matching participant paid with the given
paidAt, recomputes isSettled as the conjunction of every participant's paid
flag, persists participants/isSettled/updatedAt, appends exactly one new
settlement record with id `settlement_<billId>_<userId>_<unixTimestamp>`, and
returns that record. -/
theorem mark_participant_paid_spec (db : BillsDB) (bill_id user_id : String)
    (amount : Rat) (paid_at : String) (notes : Option String)
    (nowIso : String) (nowTs : Int) (bill : Bill)
    (hbill : db.bills.lookup bill_id = some bill) :
    ((∀ p ∈ bill.participants, p.userId ≠ user_id) →
      mark_participant_paid db bill_id user_id amount paid_at notes nowIso nowTs true =
        (db, .error "Participant not found in bill")) ∧
    ((∃ p ∈ bill.participants, p.userId = user_id) →
      ∃ db' s,
        mark_participant_paid db bill_id user_id amount paid_at notes nowIso nowTs true =
          (db', .ok s) ∧
        s = ⟨bill_id, user_id, amount, paid_at, notes, nowIso⟩ ∧
        db'.settlements = db.settlements ++
          [("settlement_" ++ bill_id ++ "_" ++ user_id ++ "_" ++ toString nowTs, s)] ∧
        ∃ bill', db'.bills.lookup bill_id = some bill' ∧
          (∃ l1 p l2, bill.participants = l1 ++ p :: l2 ∧
            (∀ q ∈ l1, q.userId ≠ user_id) ∧ p.userId = user_id ∧
            bill'.participants =
              l1 ++ { p with paid := true, paidAt := some paid_at } :: l2) ∧
          (bill'.isSettled = true ↔ ∀ q ∈ bill'.participants, q.paid = true) ∧
          bill'.updatedAt = nowIso) := by
  constructor
  · intro h
    simp only [mark_participant_paid, hbill]
    rw [markPaidInList_not_found bill.participants user_id paid_at h]
    rfl
  · intro h
    rcases markPaidInList_found bill.participants user_id paid_at h with
      ⟨l1, p, l2, hsplit, hl1, hpu, heq⟩
    refine ⟨⟨updateAssoc db.bills bill_id
        { bill with
          participants := l1 ++ { p with paid := true, paidAt := some paid_at } :: l2,
          isSettled :=
            (l1 ++ { p with paid := true, paidAt := some paid_at } :: l2).all
              (fun q => q.paid),
          updatedAt := nowIso },
        db.settlements ++
          [("settlement_" ++ bill_id ++ "_" ++ user_id ++ "_" ++ toString nowTs,
            ⟨bill_id, user_id, amount, paid_at, notes, nowIso⟩)]⟩,
      ⟨bill_id, user_id, amount, paid_at, notes, nowIso⟩, ?_, rfl, rfl, ?_⟩
    · simp only [mark_participant_paid, hbill, heq]
      rfl
    · refine ⟨{ bill with
          participants := l1 ++ { p with paid := true, paidAt := some paid_at } :: l2,
          isSettled :=
            (l1 ++ { p with paid := true, paidAt := some paid_at } :: l2).all
              (fun q => q.paid),
          updatedAt := nowIso },
        ?_, ⟨l1, p, l2, hsplit, hl1, hpu, rfl⟩, ?_, rfl⟩
      · exact lookup_updateAssoc_self db.bills bill_id _ (by rw [hbill]; rfl)
      · exact List.all_eq_true

/-- C3 witness: a two-participant bill, marking the second participant paid
succeeds and appends the expected settlement record. -/
theorem mark_participant_paid_spec_witness :
    ∃ db' s,
      mark_participant_paid
          ⟨[("b1", ⟨"u1", 100, [⟨"u1", 50, true, some "d0"⟩, ⟨"u2", 50, false, none⟩],
              false, "t0"⟩)], []⟩
          "b1" "u2" 50 "d1" none "t1" 99 true = (db', .ok s) ∧
      s = ⟨"b1", "u2", 50, "d1", none, "t1"⟩ ∧
      db'.settlements = [] ++ [("settlement_" ++ "b1" ++ "_" ++ "u2" ++ "_" ++ toString (99 : Int), s)] ∧
      ∃ bill', db'.bills.lookup "b1" = some bill' ∧
        (∃ l1 p l2,
          ([⟨"u1", 50, true, some "d0"⟩, ⟨"u2", 50, false, none⟩] : List Participant) =
            l1 ++ p :: l2 ∧
          (∀ q ∈ l1, q.userId ≠ "u2") ∧ p.userId = "u2" ∧
          bill'.participants = l1 ++ { p with paid := true, paidAt := some "d1" } :: l2) ∧
        (bill'.isSettled = true ↔ ∀ q ∈ bill'.participants, q.paid = true) ∧
        bill'.updatedAt = "t1" :=
  (mark_participant_paid_spec
      ⟨[("b1", ⟨"u1", 100, [⟨"u1", 50, true, some "d0"⟩, ⟨"u2", 50, false, none⟩],
          false, "t0"⟩)], []⟩
      "b1" "u2" 50 "d1" none "t1" 99
      ⟨"u1", 100, [⟨"u1", 50, true, some "d0"⟩, ⟨"u2", 50, false, none⟩], false, "t0"⟩
      (by rfl)).2 (by decide)

/-- C9: `mark_participant_paid` persists the updated
participants/isSettled/updatedAt on the bill before attempting the settlement
write, so when that write fails the caller sees an error while the bill
update — the participant marked paid and the recomputed isSettled — is
already durably persisted, and no settlement record is stored. -/
theorem mark_participant_paid_nonatomic (db : BillsDB) (bill_id user_id : String)
    (amount : Rat) (paid_at : String) (notes : Option String)
    (nowIso : String) (nowTs : Int) (bill : Bill)
    (hbill : db.bills.lookup bill_id = some bill)
    (h : ∃ p ∈ bill.participants, p.userId = user_id) :
    ∃ db' msg,
      mark_participant_paid db bill_id user_id amount paid_at notes nowIso nowTs false =
        (db', .error msg) ∧
      db'.settlements = db.settlements ∧
      ∃ bill', db'.bills.lookup bill_id = some bill' ∧
        (∃ l1 p l2, bill.participants = l1 ++ p :: l2 ∧
          (∀ q ∈ l1, q.userId ≠ user_id) ∧ p.userId = user_id ∧
          bill'.participants =
            l1 ++ { p with paid := true, paidAt := some paid_at } :: l2) ∧
        (bill'.isSettled = true ↔ ∀ q ∈ bill'.participants, q.paid = true) ∧
        bill'.updatedAt = nowIso := by
  rcases markPaidInList_found bill.participants user_id paid_at h with
    ⟨l1, p, l2, hsplit, hl1, hpu, heq⟩
  refine ⟨⟨updateAssoc db.bills bill_id
      { bill with
        participants := l1 ++ { p with paid := true, paidAt := some paid_at } :: l2,
        isSettled :=
          (l1 ++ { p with paid := true, paidAt := some paid_at } :: l2).all
            (fun q => q.paid),
        updatedAt := nowIso },
      db.settlements⟩,
    "settlement write failed", ?_, rfl, ?_⟩
  · simp only [mark_participant_paid, hbill, heq]
    rfl
  · refine ⟨{ bill with
        participants := l1 ++ { p with paid := true, paidAt := some paid_at } :: l2,
        isSettled :=
          (l1 ++ { p with paid := true, paidAt := some paid_at } :: l2).all
            (fun q => q.paid),
        updatedAt := nowIso },
      ?_, ⟨l1, p, l2, hsplit, hl1, hpu, rfl⟩, ?_, rfl⟩
    · exact lookup_updateAssoc_self db.bills bill_id _ (by rw [hbill]; rfl)
    · exact List.all_eq_true

/-- C9 witness: the same two-participant bill with a failing settlement write:
the result is an error, the settlements collection is unchanged, and the
bill's updated participant list and isSettled are persisted. -/
theorem mark_participant_paid_nonatomic_witness :
    ∃ db' msg,
      mark_participant_paid
          ⟨[("b1", ⟨"u1", 100, [⟨"u1", 50, true, some "d0"⟩, ⟨"u2", 50, false, none⟩],
              false, "t0"⟩)], []⟩
          "b1" "u2" 50 "d1" none "t1" 99 false = (db', .error msg) ∧
      db'.settlements = [] ∧
      ∃ bill', db'.bills.lookup "b1" = some bill' ∧
        (∃ l1 p l2,
          ([⟨"u1", 50, true, some "d0"⟩, ⟨"u2", 50, false, none⟩] : List Participant) =
            l1 ++ p :: l2 ∧
          (∀ q ∈ l1, q.userId ≠ "u2") ∧ p.userId = "u2" ∧
          bill'.participants = l1 ++ { p with paid := true, paidAt := some "d1" } :: l2) ∧
        (bill'.isSettled = true ↔ ∀ q ∈ bill'.participants, q.paid = true) ∧
        bill'.updatedAt = "t1" :=
  mark_participant_paid_nonatomic
    ⟨[("b1", ⟨"u1", 100, [⟨"u1", 50, true, some "d0"⟩, ⟨"u2", 50, false, none⟩],
        false, "t0"⟩)], []⟩
    "b1" "u2" 50 "d1" none "t1" 99
    ⟨"u1", 100, [⟨"u1", 50, true, some "d0"⟩, ⟨"u2", 50, false, none⟩], false, "t0"⟩
    (by rfl) (by decide)

lemma scanFollowup_fst_true (l : List Msg) :
    (scanFollowup l).1 = true ↔ ∃ m ∈ l, isClarifying m = true := by
  induction l with
  | nil => simp [scanFollowup]
  | cons m rest ih =>
    by_cases hm : isClarifying m = true
    · simp [scanFollowup, hm]
    · simp only [scanFollowup, hm, if_neg, Bool.false_eq_true, ite_false, ih,
        List.mem_cons]
      constructor
      · rintro ⟨q, hq, hc⟩
        exact ⟨q, Or.inr hq, hc⟩
      · rintro ⟨q, hq | hq, hc⟩
        · exact absurd (hq ▸ hc) hm
        · exact ⟨q, hq, hc⟩

lemma findFollowup_fst (history : List Msg)
    (h : ∃ m ∈ history.dropLast, isClarifying m = true) :
    (findFollowup history).1 = true := by
  have hlen : history.length > 1 := by
    rcases h with ⟨m, hm, -⟩
    have hne : history.dropLast ≠ [] := List.ne_nil_of_mem hm
    have h1 : 0 < history.dropLast.length := List.length_pos.mpr hne
    rw [List.length_dropLast] at h1
    omega
  unfold findFollowup
  rw [if_pos hlen]
  refine (scanFollowup_fst_true _).mpr ?_
  rcases h with ⟨m, hm, hc⟩
  exact ⟨m, List.mem_reverse.mpr hm, hc⟩

/-- C10: whenever some message before the current turn is an assistant
message containing a clarification phrase, `validate_intent` takes the
follow-up path: the result has is_complete = true and an empty
missing_parameters list no matter which required parameters the query lacks;
and when no intent can be inferred from the clarifying assistant message, the
returned intent and confidence are those of fresh classification of the
current query. -/
theorem followup_bypasses_required_params
    (extract : String → IntentType → List (String × String))
    (query : String) (history : List Msg)
    (h : ∃ m ∈ history.dropLast, isClarifying m = true) :
    (validate_intent extract query history).is_complete = true ∧
    (validate_intent extract query history).missing_parameters = [] ∧
    ((findFollowup history).2 = none →
      (validate_intent extract query history).intent = (classify_intent query).1.str ∧
      (validate_intent extract query history).confidence = (classify_intent query).2) := by
  have hf : (findFollowup history).1 = true := findFollowup_fst history h
  rcases hff : findFollowup history with ⟨b, o⟩
  rw [hff] at hf
  simp only at hf
  subst hf
  cases o with
  | none =>
    simp only [validate_intent, hff]
    exact ⟨rfl, rfl, fun _ => ⟨rfl, rfl⟩⟩
  | some p =>
    simp only [validate_intent, hff]
    exact ⟨rfl, rfl, fun hnone => absurd hnone (Option.some_ne_none p)⟩

/-- C10 witness: after the assistant clarification "please provide the name",
a user turn "hi" that lacks every required parameter still comes back
complete with no missing parameters, classified fresh as a general query. -/
theorem followup_bypasses_required_params_witness :
    (validate_intent (fun _ _ => []) "hi"
        [⟨"assistant", "please provide the name"⟩, ⟨"user", "hi"⟩]).is_complete = true ∧
    (validate_intent (fun _ _ => []) "hi"
        [⟨"assistant", "please provide the name"⟩, ⟨"user", "hi"⟩]).missing_parameters = [] :=
  ⟨(followup_bypasses_required_params (fun _ _ => []) "hi"
      [⟨"assistant", "please provide the name"⟩, ⟨"user", "hi"⟩] (by decide)).1,
   (followup_bypasses_required_params (fun _ _ => []) "hi"
      [⟨"assistant", "please provide the name"⟩, ⟨"user", "hi"⟩] (by decide)).2.1⟩

/-- C7 counterexample: with the history ending in the assistant message
"I need a bit more information: username, website" — which contains
clarification phrases but names no creatable item — the follow-up path fires
(is_complete = true), yet the subsequent turn "hello" is classified fresh:
the result is general_query with confidence 0, not the claimed fixed 0.9. -/
theorem followup_confidence_not_fixed :
    (validate_intent (fun _ _ => []) "hello"
        [⟨"assistant", "I need a bit more information: username, website"⟩,
         ⟨"user", "hello"⟩]).is_complete = true ∧
    (validate_intent (fun _ _ => []) "hello"
        [⟨"assistant", "I need a bit more information: username, website"⟩,
         ⟨"user", "hello"⟩]).intent = "general_query" ∧
    (validate_intent (fun _ _ => []) "hello"
        [⟨"assistant", "I need a bit more information: username, website"⟩,
         ⟨"user", "hello"⟩]).confidence = 0 ∧
    ((0 : Rat) ≠ 9/10) := by
  refine ⟨by decide, by decide, by decide, by norm_num⟩

/-- C7 (amended): a history ending with the assistant message "I need a bit
more information: username, website" routes the next user turn through the
follow-up path — is_complete = true with no missing parameters — but since no
intent is inferable from that message (it mentions neither password-creation,
totp, nor space), the returned intent and confidence come from fresh
classification of the user's text; confidence is the fixed 0.9 only when the
clarifying message names the item to create. -/
theorem followup_fresh_classification
    (extract : String → IntentType → List (String × String)) (query : String) :
    validate_intent extract query
        [⟨"assistant", "I need a bit more information: username, website"⟩,
         ⟨"user", query⟩] =
      { intent := (classify_intent query).1.str,
        confidence := (classify_intent query).2,
        parameters := extract query (classify_intent query).1,
        missing_parameters := [],
        is_complete := true,
        optional_parameters := OPTIONAL_PARAMS (classify_intent query).1 } := by
  have hff : findFollowup
      [⟨"assistant", "I need a bit more information: username, website"⟩,
       ⟨"user", query⟩] = (true, none) := by rfl
  simp only [validate_intent, hff]
  simp

/-! ### Lemmas for `calculate_balances` -/

/-- The (debts, credits) pair recorded for `u`, defaulting to `(0, 0)`. -/
def balOf (m : List (String × Rat × Rat)) (u : String) : Rat × Rat :=
  (m.lookup u).getD (0, 0)

def balKeys (m : List (String × Rat × Rat)) : List String := m.map Prod.fst

/-- Sum of the shares assigned to `u` in a participant list. -/
def partShare (ps : List Participant) (u : String) : Rat :=
  ((ps.filter (fun p => p.userId = u)).map (fun p => p.amount)).sum

lemma partShare_cons (p : Participant) (ps : List Participant) (u : String) :
    partShare (p :: ps) u =
      (if p.userId = u then p.amount else 0) + partShare ps u := by
  simp only [partShare, List.filter_cons]
  by_cases h : p.userId = u
  · simp [h]
  · simp [h]

/-- Looking a key up in a key-preserving value rewrite of the map. -/
lemma lookup_map_keyed (f : (String × Rat × Rat) → (String × Rat × Rat))
    (hf : ∀ e, (f e).1 = e.1) (m : List (String × Rat × Rat)) (v : String) :
    (m.map f).lookup v = (m.lookup v).map (fun dc => (f (v, dc)).2) := by
  induction m with
  | nil => rfl
  | cons e rest ih =>
    rcases e with ⟨w, dc⟩
    rcases hx : f (w, dc) with ⟨w', dc'⟩
    have hw' : w' = w := by
      have hkey := hf (w, dc)
      rw [hx] at hkey
      exact hkey
    by_cases hv : v = w
    · rw [hv]
      simp [List.lookup_cons, hx, hw']
    · have hbv : (v == w) = false := beq_eq_false_iff_ne.mpr hv
      simp only [List.map_cons, hx, hw', List.lookup_cons, hbv]
      exact ih

lemma lookup_addCredit (m : List (String × Rat × Rat)) (u : String) (a : Rat)
    (v : String) :
    (addCredit m u a).lookup v =
      (m.lookup v).map (fun dc => if v = u then (dc.1, dc.2 + a) else dc) := by
  unfold addCredit
  rw [lookup_map_keyed _ (fun e => by by_cases h : e.1 = u <;> simp [h]) m v]
  cases m.lookup v with
  | none => rfl
  | some dc => by_cases h : v = u <;> simp [h]

lemma lookup_addDebt (m : List (String × Rat × Rat)) (u : String) (a : Rat)
    (v : String) :
    (addDebt m u a).lookup v =
      (m.lookup v).map (fun dc => if v = u then (dc.1 + a, dc.2) else dc) := by
  unfold addDebt
  rw [lookup_map_keyed _ (fun e => by by_cases h : e.1 = u <;> simp [h]) m v]
  cases m.lookup v with
  | none => rfl
  | some dc => by_cases h : v = u <;> simp [h]

lemma lookup_ensureUser (m : List (String × Rat × Rat)) (u v : String) :
    (ensureUser m u).lookup v =
      if v = u ∧ m.lookup u = none then some (0, 0) else m.lookup v := by
  unfold ensureUser
  split_ifs with hp hc hc
  · rcases hc with ⟨rfl, hnone⟩
    rw [hnone] at hp
    simp at hp
  · rfl
  · rcases hc with ⟨rfl, hnone⟩
    rw [List.lookup_append, hnone]
    simp
  · rw [List.lookup_append]
    have hvu : ¬ v = u := by
      intro h
      exact hc ⟨h, Option.not_isSome_iff_eq_none.mp hp⟩
    have : ([(u, ((0 : Rat), (0 : Rat)))].lookup v) = none := by
      simp [List.lookup_cons, beq_eq_false_iff_ne.mpr hvu]
    rw [this]
    cases m.lookup v <;> rfl

lemma isSome_lookup_ensureUser_self (m : List (String × Rat × Rat)) (u : String) :
    ((ensureUser m u).lookup u).isSome := by
  rw [lookup_ensureUser]
  split_ifs with h
  · rfl
  · rcases hcase : m.lookup u with - | dc
    · exact absurd ⟨rfl, hcase⟩ h
    · rfl

lemma balOf_ensureUser (m : List (String × Rat × Rat)) (u v : String) :
    balOf (ensureUser m u) v = balOf m v := by
  unfold balOf
  rw [lookup_ensureUser]
  split_ifs with h
  · rw [h.1, h.2]
    rfl
  · rfl

lemma balOf_addCredit_same (m : List (String × Rat × Rat)) (u : String) (a : Rat)
    (h : (m.lookup u).isSome) :
    balOf (addCredit m u a) u = ((balOf m u).1, (balOf m u).2 + a) := by
  unfold balOf
  rw [lookup_addCredit]
  rcases Option.isSome_iff_exists.mp h with ⟨dc, hdc⟩
  rw [hdc]
  simp

lemma balOf_addCredit_other (m : List (String × Rat × Rat)) (u : String) (a : Rat)
    (v : String) (h : v ≠ u) : balOf (addCredit m u a) v = balOf m v := by
  unfold balOf
  rw [lookup_addCredit]
  cases m.lookup v <;> simp [if_neg h]

lemma balOf_addDebt_same (m : List (String × Rat × Rat)) (u : String) (a : Rat)
    (h : (m.lookup u).isSome) :
    balOf (addDebt m u a) u = ((balOf m u).1 + a, (balOf m u).2) := by
  unfold balOf
  rw [lookup_addDebt]
  rcases Option.isSome_iff_exists.mp h with ⟨dc, hdc⟩
  rw [hdc]
  simp

lemma balOf_addDebt_other (m : List (String × Rat × Rat)) (u : String) (a : Rat)
    (v : String) (h : v ≠ u) : balOf (addDebt m u a) v = balOf m v := by
  unfold balOf
  rw [lookup_addDebt]
  cases m.lookup v <;> simp [if_neg h]

lemma isSome_lookup_addCredit (m : List (String × Rat × Rat)) (u : String)
    (a : Rat) (v : String) :
    ((addCredit m u a).lookup v).isSome = (m.lookup v).isSome := by
  rw [lookup_addCredit]
  cases m.lookup v <;> rfl

lemma isSome_lookup_addDebt (m : List (String × Rat × Rat)) (u : String)
    (a : Rat) (v : String) :
    ((addDebt m u a).lookup v).isSome = (m.lookup v).isSome := by
  rw [lookup_addDebt]
  cases m.lookup v <;> rfl

lemma isSome_lookup_ensureUser_mono (m : List (String × Rat × Rat)) (u v : String)
    (h : ((m.lookup v).isSome)) : ((ensureUser m u).lookup v).isSome := by
  rw [lookup_ensureUser]
  split_ifs with hc
  · rfl
  · exact h

lemma processParticipant_isSome (c : String) (m : List (String × Rat × Rat))
    (p : Participant) (k : String) (h : (m.lookup k).isSome) :
    (((processParticipant c m p).lookup k).isSome) := by
  unfold processParticipant
  split_ifs with hp
  · rw [isSome_lookup_addCredit]
    exact h
  · rw [isSome_lookup_addDebt]
    exact isSome_lookup_ensureUser_mono _ _ _ h

lemma processParticipant_balOf (c : String) (m : List (String × Rat × Rat))
    (p : Participant) (hm : (m.lookup c).isSome) (u : String) :
    balOf (processParticipant c m p) u =
      ((balOf m u).1 + (if u = c then 0 else if p.userId = u then p.amount else 0),
       (balOf m u).2 + (if u = c ∧ p.userId = u then -p.amount else 0)) := by
  rcases p with ⟨pu, pa, pd, pt⟩
  simp only [processParticipant]
  by_cases hp : pu = c
  · rw [if_pos hp, hp]
    by_cases hu : u = c
    · rw [hu, balOf_addCredit_same m c (-pa) hm]
      simp
    · rw [balOf_addCredit_other m c (-pa) u hu]
      have hcu : ¬ c = u := fun h => hu h.symm
      simp [hu, hcu]
  · rw [if_neg hp]
    by_cases hu : u = pu
    · rw [hu, balOf_addDebt_same _ _ _ (isSome_lookup_ensureUser_self m pu),
        balOf_ensureUser]
      simp [hp]
    · rw [balOf_addDebt_other _ _ _ _ (fun h => hu h), balOf_ensureUser]
      have hpu : ¬ pu = u := fun h => hu h.symm
      simp only [hpu, if_false, and_false, add_zero]
      split_ifs <;> simp

lemma foldl_processParticipant_balOf (c : String) (ps : List Participant)
    (m : List (String × Rat × Rat)) (hm : (m.lookup c).isSome) (u : String) :
    balOf (ps.foldl (processParticipant c) m) u =
      ((balOf m u).1 + (if u = c then 0 else partShare ps u),
       (balOf m u).2 + (if u = c then -partShare ps u else 0)) := by
  induction ps generalizing m with
  | nil =>
    simp only [List.foldl_nil, partShare, List.filter_nil, List.map_nil,
      List.sum_nil]
    split_ifs <;> simp
  | cons p rest ih =>
    rw [List.foldl_cons, ih _ (processParticipant_isSome c m p c hm),
      processParticipant_balOf c m p hm u, partShare_cons]
    simp only [Prod.mk.injEq]
    constructor
    · by_cases hu : u = c
      · simp only [if_pos hu]
        ring
      · simp only [if_neg hu]
        ring
    · by_cases hu : u = c
      · subst hu
        simp only [if_pos rfl, eq_self_iff_true, true_and]
        split_ifs <;> ring
      · simp only [if_neg hu,
          if_neg (fun hc : u = c ∧ p.userId = u => hu hc.1)]
        ring

lemma debtsDelta_eq (b : Bill) (u : String) :
    debtsDelta b u =
      if b.isSettled then 0
      else if b.createdBy = u then 0 else partShare b.participants u := rfl

lemma creditsDelta_eq (b : Bill) (u : String) :
    creditsDelta b u =
      if b.isSettled then 0
      else if b.createdBy = u then b.amount - partShare b.participants u
      else 0 := rfl

lemma processBill_balOf (m : List (String × Rat × Rat)) (b : Bill) (u : String) :
    balOf (processBill m b) u =
      ((balOf m u).1 + debtsDelta b u, (balOf m u).2 + creditsDelta b u) := by
  rw [debtsDelta_eq, creditsDelta_eq]
  unfold processBill
  by_cases hs : b.isSettled = true
  · simp [hs]
  · simp only [hs, Bool.false_eq_true, if_false]
    have h1 : ((ensureUser m b.createdBy).lookup b.createdBy).isSome :=
      isSome_lookup_ensureUser_self m b.createdBy
    have h2 : (((addCredit (ensureUser m b.createdBy) b.createdBy b.amount).lookup
        b.createdBy).isSome) := by
      rw [isSome_lookup_addCredit]
      exact h1
    rw [foldl_processParticipant_balOf b.createdBy b.participants _ h2 u]
    by_cases hu : u = b.createdBy
    · subst hu
      rw [balOf_addCredit_same _ _ _ h1, balOf_ensureUser]
      simp only [eq_self_iff_true, if_true, Prod.mk.injEq]
      exact ⟨trivial, by ring⟩
    · have hcu : ¬ b.createdBy = u := fun h => hu h.symm
      rw [balOf_addCredit_other _ _ _ _ hu, balOf_ensureUser]
      simp only [if_neg hu, if_neg hcu, Prod.mk.injEq]

lemma foldl_processBill_balOf (bills : List Bill)
    (m : List (String × Rat × Rat)) (u : String) :
    balOf (bills.foldl processBill m) u =
      ((balOf m u).1 + debtsExact bills u, (balOf m u).2 + creditsExact bills u) := by
  induction bills generalizing m with
  | nil =>
    simp only [List.foldl_nil, debtsExact, creditsExact, List.map_nil,
      List.sum_nil, add_zero]
  | cons b rest ih =>
    rw [List.foldl_cons, ih, processBill_balOf]
    simp only [debtsExact, creditsExact, List.map_cons, List.sum_cons,
      Prod.mk.injEq]
    constructor <;> ring

/-! Keys of the balance map stay duplicate-free, so each stored entry is what
`lookup` returns for its user. -/

lemma balKeys_addCredit (m : List (String × Rat × Rat)) (u : String) (a : Rat) :
    balKeys (addCredit m u a) = balKeys m := by
  unfold balKeys addCredit
  rw [List.map_map]
  refine List.map_congr_left ?_
  intro e he
  by_cases h : e.1 = u <;> simp [h]

lemma balKeys_addDebt (m : List (String × Rat × Rat)) (u : String) (a : Rat) :
    balKeys (addDebt m u a) = balKeys m := by
  unfold balKeys addDebt
  rw [List.map_map]
  refine List.map_congr_left ?_
  intro e he
  by_cases h : e.1 = u <;> simp [h]

lemma nodup_balKeys_ensureUser (m : List (String × Rat × Rat)) (u : String)
    (h : (balKeys m).Nodup) : (balKeys (ensureUser m u)).Nodup := by
  unfold ensureUser
  split_ifs with hp
  · exact h
  · have hnone : m.lookup u = none := Option.not_isSome_iff_eq_none.mp hp
    have hu : u ∉ balKeys m := by
      rw [List.lookup_eq_none_iff] at hnone
      intro hmem
      rcases List.mem_map.mp hmem with ⟨e, he, heq⟩
      have := hnone e he
      rw [← heq] at this
      simp at this
    unfold balKeys
    rw [List.map_append, List.nodup_append]
    refine ⟨h, List.nodup_singleton _, fun a ha hb => ?_⟩
    rw [List.map_cons, List.map_nil, List.mem_singleton] at hb
    have hau : a = u := hb
    exact hu (hau ▸ ha)

lemma nodup_balKeys_processParticipant (c : String)
    (m : List (String × Rat × Rat)) (p : Participant)
    (h : (balKeys m).Nodup) : (balKeys (processParticipant c m p)).Nodup := by
  unfold processParticipant
  split_ifs with hp
  · rw [balKeys_addCredit]
    exact h
  · rw [balKeys_addDebt]
    exact nodup_balKeys_ensureUser m p.userId h

lemma nodup_balKeys_foldl_parts (c : String) (ps : List Participant)
    (m : List (String × Rat × Rat)) (h : (balKeys m).Nodup) :
    (balKeys (ps.foldl (processParticipant c) m)).Nodup := by
  induction ps generalizing m with
  | nil => exact h
  | cons p rest ih =>
    rw [List.foldl_cons]
    exact ih _ (nodup_balKeys_processParticipant c m p h)

lemma nodup_balKeys_processBill (m : List (String × Rat × Rat)) (b : Bill)
    (h : (balKeys m).Nodup) : (balKeys (processBill m b)).Nodup := by
  unfold processBill
  split_ifs with hs
  · exact h
  · refine nodup_balKeys_foldl_parts b.createdBy b.participants _ ?_
    rw [balKeys_addCredit]
    exact nodup_balKeys_ensureUser m b.createdBy h

lemma nodup_balKeys_foldl (bills : List Bill) (m : List (String × Rat × Rat))
    (h : (balKeys m).Nodup) : (balKeys (bills.foldl processBill m)).Nodup := by
  induction bills generalizing m with
  | nil => exact h
  | cons b rest ih =>
    rw [List.foldl_cons]
    exact ih _ (nodup_balKeys_processBill m b h)

lemma lookup_of_mem_nodup (m : List (String × Rat × Rat))
    (h : (balKeys m).Nodup) (e : String × Rat × Rat) (he : e ∈ m) :
    m.lookup e.1 = some e.2 := by
  induction m with
  | nil => cases he
  | cons x rest ih =>
    rcases List.mem_cons.mp he with rfl | he'
    · rcases e with ⟨a, dc⟩
      exact List.lookup_cons_self
    · have hx : x.1 ∉ balKeys rest := by
        unfold balKeys at h
        rw [List.map_cons] at h
        exact (List.nodup_cons.mp h).1
    -- e ∈ rest, so e.1 ∈ keys rest and e.1 ≠ x.1
      have hne : ¬ e.1 = x.1 := by
        intro hcontra
        exact hx (hcontra ▸ List.mem_map.mpr ⟨e, he', rfl⟩)
      rcases x with ⟨a, dc⟩
      rw [List.lookup_cons]
      have hb : (e.1 == a) = false := beq_eq_false_iff_ne.mpr hne
      rw [hb]
      exact ih (by
        unfold balKeys at h ⊢
        rw [List.map_cons] at h
        exact (List.nodup_cons.mp h).2) he'

lemma foldl_processBill_skip_settled (bills : List Bill)
    (m : List (String × Rat × Rat)) :
    bills.foldl processBill m =
      (bills.filter (fun b => !b.isSettled)).foldl processBill m := by
  induction bills generalizing m with
  | nil => rfl
  | cons b rest ih =>
    rw [List.foldl_cons, List.filter_cons]
    by_cases hs : b.isSettled = true
    · have hpb : processBill m b = m := by
        unfold processBill
        rw [if_pos hs]
      rw [hpb]
      simp only [hs, Bool.not_true]
      exact ih m
    · have hb : (!b.isSettled) = true := by
        simp only [Bool.not_eq_true] at hs ⊢
        simp [hs]
      rw [hb]
      simp only [if_true]
      rw [List.foldl_cons]
      exact ih (processBill m b)

/-- C1: `calculate_balances` processes exactly the non-settled bills of the
space (settled bills contribute nothing), and every entry of the result
carries a user whose exact net balance (credits minus debits, where the
creator is credited the full amount, every other participant is debited
their share, and a creator-participant's own share is netted out of their
credits) exceeds 0.01 in absolute value, with netBalance, debts and credits
each being the 2-decimal rounding of the exact figures. -/
theorem calculate_balances_spec (bills : List Bill) :
    calculate_balances bills =
      calculate_balances (bills.filter (fun b => !b.isSettled)) ∧
    ∀ e ∈ calculate_balances bills,
      |creditsExact bills e.userId - debtsExact bills e.userId| > 1/100 ∧
      e.netBalance = pyRound2 (creditsExact bills e.userId - debtsExact bills e.userId) ∧
      e.debts = pyRound2 (debtsExact bills e.userId) ∧
      e.credits = pyRound2 (creditsExact bills e.userId) := by
  constructor
  · unfold calculate_balances
    rw [foldl_processBill_skip_settled]
  · intro e he
    unfold calculate_balances at he
    rcases List.mem_filterMap.mp he with ⟨x, hx, hfx⟩
    have hnodup : (balKeys (bills.foldl processBill [])).Nodup :=
      nodup_balKeys_foldl bills [] List.nodup_nil
    have hlk : (bills.foldl processBill []).lookup x.1 = some x.2 :=
      lookup_of_mem_nodup _ hnodup x hx
    have hbal : balOf (bills.foldl processBill []) x.1 = x.2 := by
      unfold balOf
      rw [hlk]
      rfl
    have hexact : x.2 = (debtsExact bills x.1, creditsExact bills x.1) := by
      rw [← hbal, foldl_processBill_balOf]
      show ((balOf [] x.1).1 + _, (balOf [] x.1).2 + _) = _
      simp [balOf]
    by_cases hc : |x.2.2 - x.2.1| > 1/100
    · rw [if_pos hc] at hfx
      have he' : e = ⟨x.1, pyRound2 (x.2.2 - x.2.1), pyRound2 x.2.1, pyRound2 x.2.2⟩ :=
        (Option.some_injective _ hfx).symm
      subst he'
      have h1 : x.2.1 = debtsExact bills x.1 := by rw [hexact]
      have h2 : x.2.2 = creditsExact bills x.1 := by rw [hexact]
      refine ⟨?_, ?_, ?_, ?_⟩
      · rw [← h1, ← h2]
        exact hc
      · rw [← h1, ← h2]
      · rw [← h1]
      · rw [← h2]
    · rw [if_neg hc] at hfx
      exact absurd hfx (by simp)

/-- C1 witness: one unsettled 100 bill created by "a", split 50/50 with "b"
and the creator participating: the result contains the entry for "a" whose
figures are the rounded exact sums and whose exact net exceeds 0.01. -/
theorem calculate_balances_spec_witness :
    (⟨"a", 50, 0, 50⟩ : BalanceEntry) ∈
      calculate_balances
        [⟨"a", 100, [⟨"a", 50, false, none⟩, ⟨"b", 50, false, none⟩], false, ""⟩] ∧
    |creditsExact
        [⟨"a", 100, [⟨"a", 50, false, none⟩, ⟨"b", 50, false, none⟩], false, ""⟩] "a" -
      debtsExact
        [⟨"a", 100, [⟨"a", 50, false, none⟩, ⟨"b", 50, false, none⟩], false, ""⟩] "a"| >
      1/100 :=
  ⟨by decide,
   ((calculate_balances_spec
      [⟨"a", 100, [⟨"a", 50, false, none⟩, ⟨"b", 50, false, none⟩], false, ""⟩]).2
      ⟨"a", 50, 0, 50⟩ (by decide)).1⟩


end AllOne
